import Mathlib

/-
Verification of the pocket_gis spatial assignment and indexing engine.

The Python sources delegate their algorithmic core to library calls
(geopandas.sjoin_nearest, pandas groupby/merge/sort_values, the SQLite
rtree virtual table, a hand-written numpy k-means).  The definitions
below embed those operations over lists with exact rational arithmetic,
following the documented semantics of each library call as used at the
cited source lines.  Euclidean distances are carried as squared
distances (rational), which preserves every comparison the code makes
(distance ordering and the radius test d <= R iff d^2 <= R^2).
-/

set_option linter.unusedVariables false

namespace PocketGis

/-- Planar point in the projected (EPSG:3857) coordinate system, metres. -/
abbrev Q2 := ℚ × ℚ

/-- Squared Euclidean distance between two points. -/
def dist2 (p q : Q2) : ℚ := (p.1 - q.1) ^ 2 + (p.2 - q.2) ^ 2

/-- Squared distance from point `p` to the closed segment from `a` to `b`:
the exact point-to-segment distance shapely computes for one LineString
segment, as the clamped projection parameter.  A degenerate segment
(`a = b`) falls back to the point distance. -/
def dist2PointSeg (p a b : Q2) : ℚ :=
  let L := dist2 a b
  let t0 := ((p.1 - a.1) * (b.1 - a.1) + (p.2 - a.2) * (b.2 - a.2)) / L
  let t := if L = 0 then 0 else max 0 (min 1 t0)
  dist2 p (a.1 + t * (b.1 - a.1), a.2 + t * (b.2 - a.2))

/-- A road segment feature from `generate_roads` / the roads frame of
`analysis.py`: integer id and a polyline of at least two vertices
(shapely LineString), stored as the first two vertices plus the rest. -/
structure RoadF where
  road_id : ℤ
  p0 : Q2
  p1 : Q2
  tail : List Q2
deriving DecidableEq, Repr

/-- The consecutive vertex pairs of the road polyline. -/
def RoadF.segments (r : RoadF) : List (Q2 × Q2) :=
  (r.p0 :: r.p1 :: r.tail).zip (r.p1 :: r.tail)

/-- Squared distance from a point to a road polyline: the minimum of the
squared point-to-segment distances over all segments (shapely
`Point.distance(LineString)`). -/
def dist2Road (p : Q2) (r : RoadF) : ℚ :=
  (r.segments.map (fun s => dist2PointSeg p s.1 s.2)).foldl min
    (dist2PointSeg p r.p0 r.p1)

/-- A crash event from the crashes frame of `analysis.py`. -/
structure CrashPt where
  crash_id : ℤ
  severity : ℤ
  hour : ℤ
  pt : Q2
deriving DecidableEq, Repr

/-- One output row of `nearest_road` (`analysis.py` line 28): crash
columns plus the joined `road_id` and `dist_m` columns, which are NaN
(modelled `none`) when no road lies within the search radius.  The
distance column is carried as the squared distance. -/
structure ARow where
  crash_id : ℤ
  severity : ℤ
  hour : ℤ
  pt : Q2
  road_id : Option ℤ
  dist2_m : Option ℚ
deriving DecidableEq, Repr

/-- The rows `gpd.sjoin_nearest(crashes, roads, how="left",
max_distance=R)` produces for one left row `c` (`analysis.py` lines
18-24): roads farther than `R` are excluded; if none remains the left
row is kept with NaN join columns (`how="left"`); otherwise one output
row per road attaining the minimum distance — per the geopandas
docstring, results include multiple output records for a single input
record where there are multiple equidistant nearest neighbors.  Here
are the within-radius candidate roads of one event: -/
def nearestCands (c : CrashPt) (roads : List RoadF) (R : ℚ) : List RoadF :=
  roads.filter (fun r => dist2Road c.pt r ≤ R ^ 2)

/-- One output row per road attaining the minimum distance among the
within-radius candidates, or a single unassigned row when there is no
candidate (`how="left"`). -/
def nearestRowsFor (c : CrashPt) (roads : List RoadF) (R : ℚ) : List ARow :=
  match ((nearestCands c roads R).map (dist2Road c.pt)).min? with
  | none => [⟨c.crash_id, c.severity, c.hour, c.pt, none, none⟩]
  | some m =>
    ((nearestCands c roads R).filter (fun r => dist2Road c.pt r = m)).map
      (fun r => ⟨c.crash_id, c.severity, c.hour, c.pt, some r.road_id, some m⟩)

/-- Embedding of `nearest_road` (`analysis.py` lines 16-29): the
left-nearest join of every crash against the road set with the given
search radius. -/
def nearest_road (crashes : List CrashPt) (roads : List RoadF) (R : ℚ) : List ARow :=
  crashes.flatMap (fun c => nearestRowsFor c roads R)

/-- A pandas float value: a rational number, an infinity produced by
division of a nonzero value by zero, or NaN (produced by 0/0 and
propagated through arithmetic). -/
inductive PV where
  | num (q : ℚ)
  | pinf
  | ninf
  | nan
deriving DecidableEq, Repr

/-- IEEE-style division as pandas performs it on float columns: a
nonzero numerator over zero gives a signed infinity, 0/0 gives NaN. -/
def PV.div : PV → PV → PV
  | num a, num b =>
    if b ≠ 0 then num (a / b) else if 0 < a then pinf else if a < 0 then ninf else nan
  | _, _ => nan

/-- Multiplication of a float column by a rational scalar constant,
with IEEE sign handling for infinities and NaN propagation. -/
def PV.smul (c : ℚ) : PV → PV
  | num a => num (c * a)
  | pinf => if 0 < c then pinf else if c < 0 then ninf else nan
  | ninf => if 0 < c then ninf else if c < 0 then pinf else nan
  | nan => nan

/-- Addition of float columns with NaN propagation. -/
def PV.add : PV → PV → PV
  | num a, num b => num (a + b)
  | nan, _ => nan
  | _, nan => nan
  | pinf, ninf => nan
  | ninf, pinf => nan
  | pinf, _ => pinf
  | _, pinf => pinf
  | ninf, _ => ninf
  | _, ninf => ninf

/-- The `.replace([np.inf, -np.inf], 0)` step of `road_summary`
(`analysis.py` lines 43-44): both infinities become 0, every other
value — including NaN — is kept unchanged. -/
def PV.replaceInf : PV → PV
  | pinf => num 0
  | ninf => num 0
  | x => x

/-- A road row as consumed by `road_summary`: id and cached length. -/
structure RoadS where
  road_id : ℤ
  length_m : ℚ
deriving DecidableEq, Repr

/-- One output row of `road_summary`. -/
structure FeatureSummary where
  road_id : ℤ
  length_m : ℚ
  n_crashes : ℚ
  sev_sum : ℚ
  crashes_per_km : PV
  sev_per_km : PV
  risk_score : PV
deriving DecidableEq, Repr

/-- Fold step of the groupby aggregation: bump the (count, severity sum)
pair of road `rid`, creating the group on first sight. -/
def aggBump (acc : List (ℤ × ℕ × ℤ)) (rid : ℤ) (sev : ℤ) : List (ℤ × ℕ × ℤ) :=
  if acc.any (fun e => e.1 = rid) then
    acc.map (fun e => if e.1 = rid then (e.1, e.2.1 + 1, e.2.2 + sev) else e)
  else acc ++ [(rid, 1, sev)]

/-- The `dropna(subset=["road_id"]).groupby("road_id").agg(...)` step of
`road_summary` (`analysis.py` lines 34-36): per assigned road id, the
row count and the severity sum; unassigned rows are discarded. -/
def aggAssign (asg : List ARow) : List (ℤ × ℕ × ℤ) :=
  asg.foldl (fun acc a =>
    match a.road_id with
    | none => acc
    | some rid => aggBump acc rid a.severity) []

/-- The crash count merged onto a road: its group count, or 0 after
`fillna(0)` when the road id has no group. -/
def summaryN (asg : List ARow) (rid : ℤ) : ℚ :=
  match (aggAssign asg).find? (fun e => e.1 = rid) with
  | some e => (e.2.1 : ℚ)
  | none => 0

/-- The severity sum merged onto a road, 0 when the road has no group. -/
def summaryS (asg : List ARow) (rid : ℤ) : ℚ :=
  match (aggAssign asg).find? (fun e => e.1 = rid) with
  | some e => (e.2.2 : ℚ)
  | none => 0

/-- The summary row `road_summary` produces for one road (`analysis.py`
lines 38-45): left-merge against the aggregate (missing groups filled
with 0), then the per-km rates with infinities replaced by 0, then the
weighted risk score. -/
def summaryRow (asg : List ARow) (road : RoadS) : FeatureSummary :=
  { road_id := road.road_id, length_m := road.length_m,
    n_crashes := summaryN asg road.road_id, sev_sum := summaryS asg road.road_id,
    crashes_per_km :=
      (PV.div (PV.num (summaryN asg road.road_id))
        (PV.num (road.length_m / 1000))).replaceInf,
    sev_per_km :=
      (PV.div (PV.num (summaryS asg road.road_id))
        (PV.num (road.length_m / 1000))).replaceInf,
    risk_score :=
      (PV.smul (6 / 10)
        ((PV.div (PV.num (summaryS asg road.road_id))
          (PV.num (road.length_m / 1000))).replaceInf)).add
      (PV.smul (4 / 10)
        ((PV.div (PV.num (summaryN asg road.road_id))
          (PV.num (road.length_m / 1000))).replaceInf)) }

/-- Embedding of `road_summary` (`analysis.py` lines 32-47).  The merge
is a left join of the roads frame against the aggregate, whose keys are
unique (groupby keys), so the output is one row per road in road
order. -/
def road_summary (roads : List RoadS) (asg : List ARow) : List FeatureSummary :=
  roads.map (summaryRow asg)

/-- One row of the `rtree_nyc_crashes` virtual table (`db.py` lines
22-24): record id and axis-aligned bounding box. -/
structure RtEntry where
  id : ℤ
  minx : ℚ
  maxx : ℚ
  miny : ℚ
  maxy : ℚ
deriving DecidableEq, Repr

/-- The rtree WHERE clause used by every windowed query in `api.py`
(for example lines 183-184): `r.minx <= xmax AND r.maxx >= xmin AND
r.miny <= ymax AND r.maxy >= ymin` — the inclusive rectangle overlap
test. -/
def rtreeOverlap (e : RtEntry) (xmin xmax ymin ymax : ℚ) : Bool :=
  decide (e.minx ≤ xmax) && decide (e.maxx ≥ xmin) &&
  decide (e.miny ≤ ymax) && decide (e.maxy ≥ ymin)

/-- The candidate-id set the spatial index returns for a query
rectangle: every stored entry passing the inclusive overlap test. -/
def rtreeQuery (entries : List RtEntry) (xmin xmax ymin ymax : ℚ) : List ℤ :=
  (entries.filter (fun e => rtreeOverlap e xmin xmax ymin ymax)).map (fun e => e.id)

/-- One row of the `nyc_crashes` table (`db.py` lines 15-21): id,
severity, hour, date (modelled as an integer day number) and the stored
point geometry (the WKT column holds points produced by
`to_geodataframe`). -/
structure CrashRec where
  crash_id : ℤ
  severity : ℤ
  hour : ℤ
  crash_date : ℤ
  x : ℚ
  y : ℚ
deriving DecidableEq, Repr

/-- The rtree row `ingest_nyc_crashes` derives from a crash record
(`db.py` lines 57-61): `geometry.bounds` of a point is the degenerate
box with `minx = maxx = x` and `miny = maxy = y`. -/
def toEntry (c : CrashRec) : RtEntry :=
  ⟨c.crash_id, c.x, c.x, c.y, c.y⟩

/-- `INSERT OR REPLACE` of one crash row keyed by the `crash_id`
primary key: replace the existing row with that id, else append. -/
def upsertCrash (t : List CrashRec) (r : CrashRec) : List CrashRec :=
  if t.any (fun c => c.crash_id = r.crash_id) then
    t.map (fun c => if c.crash_id = r.crash_id then r else c)
  else t ++ [r]

/-- `INSERT OR REPLACE` of one rtree row keyed by its id. -/
def upsertEntry (t : List RtEntry) (e : RtEntry) : List RtEntry :=
  if t.any (fun x => x.id = e.id) then
    t.map (fun x => if x.id = e.id then e else x)
  else t ++ [e]

/-- The two tables of the store (`db.py` SCHEMA_SQL). -/
structure DbState where
  nyc_crashes : List CrashRec
  rtree_nyc_crashes : List RtEntry
deriving DecidableEq, Repr

/-- Embedding of `ingest_nyc_crashes` (`db.py` lines 35-63): one
`executemany` upserting every record into `nyc_crashes`, then one
upserting the derived bounding box of every record into
`rtree_nyc_crashes`, committed together. -/
def ingest_nyc_crashes (s : DbState) (recs : List CrashRec) : DbState :=
  { nyc_crashes := recs.foldl upsertCrash s.nyc_crashes,
    rtree_nyc_crashes := recs.foldl (fun t r => upsertEntry t (toEntry r)) s.rtree_nyc_crashes }

/-- Embedding of `clear_nyc_cache` (`db.py` lines 66-69): both tables
are emptied in one transaction. -/
def clear_nyc_cache (s : DbState) : DbState := ⟨[], []⟩

/-- The store operations the API performs on the cache. -/
inductive DbOp where
  | ingest (recs : List CrashRec)
  | clear
deriving Repr

/-- Apply one store operation. -/
def DbState.step (s : DbState) : DbOp → DbState
  | .ingest recs => ingest_nyc_crashes s recs
  | .clear => clear_nyc_cache s

/-- Run a sequence of store operations from the freshly initialised
(empty) database. -/
def runOps (ops : List DbOp) : DbState :=
  ops.foldl DbState.step ⟨[], []⟩

/-- A windowed-query shape (`api.py` /nyc/timeseries and /nyc/summary):
an explicit rectangle, or a point with a buffer radius. -/
inductive Shape where
  | rect (xmin xmax ymin ymax : ℚ)
  | pointR (x y radius : ℚ)
deriving DecidableEq, Repr

/-- The axis-aligned bounding box of the query shape, as computed at
`api.py` lines 159-160 (rect mode) and 168-169 (point mode). -/
def Shape.bbox : Shape → ℚ × ℚ × ℚ × ℚ
  | rect a b c d => (a, b, c, d)
  | pointR x y r => (x - r, x + r, y - r, y + r)

/-- Phase one of the windowed query (`api.py` lines 177-187): the rows
whose rtree bounding box passes the inclusive overlap test against the
query shape's bounding box. -/
def window_candidates (table : List CrashRec) (s : Shape) : List CrashRec :=
  table.filter (fun c =>
    rtreeOverlap (toEntry c) s.bbox.1 s.bbox.2.1 s.bbox.2.2.1 s.bbox.2.2.2)

/-- Phase two, the exact geometry test (`api.py` line 193,
`geom_filter.intersects(geom)`) for a stored point: inclusive
containment in the rectangle, or distance at most the radius for the
buffered point (shapely materialises the circle as a buffer polygon;
the subset property proved below is independent of the precise
predicate). -/
def exact_test (s : Shape) (c : CrashRec) : Bool :=
  match s with
  | .rect xmin xmax ymin ymax =>
    decide (xmin ≤ c.x) && decide (c.x ≤ xmax) &&
    decide (ymin ≤ c.y) && decide (c.y ≤ ymax)
  | .pointR x y r => decide (dist2 (x, y) (c.x, c.y) ≤ r ^ 2)

/-- The rows the time-series endpoint retains (`api.py` lines 176-196):
the index candidates filtered by the exact geometry test.  The summary
endpoint (`api.py` lines 260-289) applies the same two-phase filter. -/
def nyc_timeseries_rows (table : List CrashRec) (s : Shape) : List CrashRec :=
  (window_candidates table s).filter (exact_test s)

/-- One input row of `kmeans_hotspots`: point coordinates and severity. -/
structure KRecord where
  x : ℚ
  y : ℚ
  severity : ℚ
deriving DecidableEq, Repr

/-- One output row of `kmeans_hotspots` (`nyc.py` line 107): centroid
index, member count, mean severity of the members, centroid point. -/
structure Cluster where
  cluster : ℕ
  n : ℕ
  severity_mean : ℚ
  cx : ℚ
  cy : ℚ
deriving DecidableEq, Repr

/-- Model of `np.random.default_rng(seed).choice(n, size=n,
replace=False)` as a deterministic permutation of `0..n-1` depending
only on the seed: numpy's generator output is a pure function of its
seed, and no claim depends on which permutation it is, only on it
being a seed-determined permutation. -/
def permOfSeed (seed n : ℕ) : List ℕ :=
  (List.range n).drop (seed % (n + 1)) ++ (List.range n).take (seed % (n + 1))

/-- The initial centroids (`nyc.py` line 84): the points indexed by a
seed-determined draw of `min k n` distinct indices without
replacement. -/
def initCentroids (seed k : ℕ) (X : List Q2) : List Q2 :=
  ((permOfSeed seed X.length).take (min k X.length)).map (fun i => X.getD i (0, 0))

/-- Index of the first minimum of a list of rationals — the semantics
of `np.argmin`, which returns the first occurrence on ties. -/
def argminIdx (l : List ℚ) : ℕ :=
  (l.foldl
    (fun (s : ℕ × ℚ × ℕ) v =>
      if v < s.2.1 then (s.2.2, v, s.2.2 + 1) else (s.1, s.2.1, s.2.2 + 1))
    (0, l.headD 0, 0)).1

/-- The assignment step (`nyc.py` lines 87-88): each point gets the
index of its nearest centroid by squared Euclidean distance, ties to
the lowest centroid index. -/
def assignLabels (X : List Q2) (cents : List Q2) : List ℕ :=
  X.map (fun p => argminIdx (cents.map (dist2 p)))

/-- Mean of a list of points, coordinatewise. -/
def meanPt (pts : List Q2) : Q2 :=
  ((pts.map Prod.fst).sum / pts.length, (pts.map Prod.snd).sum / pts.length)

/-- The update step (`nyc.py` lines 90-93): each centroid becomes the
mean of its assigned points, and is left unchanged when it received no
points. -/
def updateCentroids (X : List Q2) (labels : List ℕ) (cents : List Q2) : List Q2 :=
  (List.range cents.length).map (fun i =>
    let pts := ((X.zip labels).filter (fun pl => pl.2 = i)).map (fun pl => pl.1)
    if pts.isEmpty then cents.getD i (0, 0) else meanPt pts)

/-- One k-means round (`nyc.py` lines 85-93): assign labels against the
current centroids, then update the centroids; the state carries the
labels of the round just performed. -/
def kstep (X : List Q2) (s : List Q2 × List ℕ) : List Q2 × List ℕ :=
  let labels := assignLabels X s.1
  (updateCentroids X labels s.1, labels)

/-- The centroids and labels after the fixed 10 rounds, starting from
the seed-42 initial centroids (`nyc.py` lines 83-93). -/
def kmeansFinal (recs : List KRecord) (k : ℕ) : List Q2 × List ℕ :=
  let X := recs.map (fun r => (r.x, r.y))
  (kstep X)^[10] (initCentroids 42 k X, [])

/-- The cluster statistics loop (`nyc.py` lines 96-106): for every
centroid index in order, the final members; centroids with zero
members are skipped; mean severity is over the final members and the
geometry is the final centroid. -/
def buildStats (recs : List KRecord) (cents : List Q2) (labels : List ℕ) : List Cluster :=
  (List.range cents.length).filterMap (fun i =>
    if ((recs.zip labels).filter (fun rl => rl.2 = i)).length = 0 then none
    else some
      { cluster := i, n := ((recs.zip labels).filter (fun rl => rl.2 = i)).length,
        severity_mean :=
          (((recs.zip labels).filter (fun rl => rl.2 = i)).map
            (fun rl => rl.1.severity)).sum /
          ((recs.zip labels).filter (fun rl => rl.2 = i)).length,
        cx := (cents.getD i (0, 0)).1, cy := (cents.getD i (0, 0)).2 })

/-- The unsorted cluster list of one run. -/
def kmeansStats (recs : List KRecord) (k : ℕ) : List Cluster :=
  buildStats recs (kmeansFinal recs k).1 (kmeansFinal recs k).2

/-- Descending comparison by member count with ties by ascending
centroid index: the order a stable descending sort by `n` induces on
the stats list, whose centroid indices are strictly increasing. -/
def clusterDescLE (a b : Cluster) : Prop :=
  b.n < a.n ∨ (a.n = b.n ∧ a.cluster ≤ b.cluster)

instance : DecidableRel clusterDescLE := fun a b => by
  unfold clusterDescLE; infer_instance

instance : IsTotal Cluster clusterDescLE := by
  constructor
  intro a b
  unfold clusterDescLE
  rcases Nat.lt_trichotomy a.n b.n with h | h | h
  · exact Or.inr (Or.inl h)
  · rcases Nat.le_total a.cluster b.cluster with hc | hc
    · exact Or.inl (Or.inr ⟨h, hc⟩)
    · exact Or.inr (Or.inr ⟨h.symm, hc⟩)
  · exact Or.inl (Or.inl h)

instance : IsTrans Cluster clusterDescLE := by
  constructor
  intro a b c hab hbc
  unfold clusterDescLE at *
  rcases hab with h1 | ⟨h1, h1c⟩
  · rcases hbc with h2 | ⟨h2, _⟩
    · exact Or.inl (h2.trans h1)
    · exact Or.inl (h2 ▸ h1)
  · rcases hbc with h2 | ⟨h2, h2c⟩
    · exact Or.inl (h1 ▸ h2)
    · exact Or.inr ⟨h1.trans h2, h1c.trans h2c⟩

/-- The `sort_values("n", ascending=False)` step (`nyc.py` line 108) as
pandas implements it (`nargsort`): for a descending sort, pandas
reverses both the value array and the index array before the stable
ascending argsort and reverses the resulting indexer after, so the
double reversal makes the descending sort stable — equal member counts
keep their original relative order.  On the stats list, whose tie
positions are in increasing centroid order, this stable descending
sort is the `clusterDescLE` insertion sort. -/
def sortDesc (l : List Cluster) : List Cluster :=
  List.insertionSort clusterDescLE l

/-- Embedding of `kmeans_hotspots` (`nyc.py` lines 74-108).  The
`entropy` argument models the ambient randomness a caller-seeded
generator would consume; the code fixes the seed to 42 and never reads
it.  An empty cloud returns the empty frame; with a non-empty cloud
and `k = 0` there are no centroids and `np.argmin` over the empty axis
raises, modelled as `none`. -/
def kmeans_hotspots (entropy : ℕ) (recs : List KRecord) (k : ℕ) : Option (List Cluster) :=
  if recs.isEmpty then some []
  else
    let X := recs.map (fun r => (r.x, r.y))
    if (initCentroids 42 k X).isEmpty then none
    else some (sortDesc (kmeansStats recs k))

/-- C2: every stored index entry whose bounding box passes the
inclusive overlap test against the query rectangle is returned by the
spatial-index candidate query — zero false negatives, including boxes
that only touch the query boundary. -/
theorem rtree_query_no_false_negatives (entries : List RtEntry) (e : RtEntry)
    (xmin xmax ymin ymax : ℚ) (hmem : e ∈ entries)
    (h1 : e.minx ≤ xmax) (h2 : e.maxx ≥ xmin) (h3 : e.miny ≤ ymax) (h4 : e.maxy ≥ ymin) :
    e.id ∈ rtreeQuery entries xmin xmax ymin ymax := by
  unfold rtreeQuery
  exact List.mem_map_of_mem _
    (List.mem_filter.mpr ⟨hmem, by simp [rtreeOverlap, h1, h2, h3, h4]⟩)

theorem rtree_query_no_false_negatives_witness :
    (7 : ℤ) ∈ rtreeQuery [⟨7, 10, 12, 10, 12⟩] 0 10 0 10 :=
  rtree_query_no_false_negatives [⟨7, 10, 12, 10, 12⟩] ⟨7, 10, 12, 10, 12⟩ 0 10 0 10
    (by decide) (by decide) (by decide) (by decide) (by decide)

/-- C3: the rows the windowed query keeps after the exact geometry test
are a subset of the spatial-index candidates for the shape's bounding
box, and their ids are among the ids the rtree query returns for that
box: the two-phase pattern only ever narrows the candidate set. -/
theorem nyc_timeseries_two_phase_subset (table : List CrashRec) (s : Shape)
    (row : CrashRec) (h : row ∈ nyc_timeseries_rows table s) :
    row ∈ window_candidates table s ∧
    row.crash_id ∈ rtreeQuery (table.map toEntry) s.bbox.1 s.bbox.2.1 s.bbox.2.2.1 s.bbox.2.2.2 := by
  have hc : row ∈ window_candidates table s := List.mem_of_mem_filter h
  refine ⟨hc, ?_⟩
  unfold window_candidates at hc
  have hmem := List.mem_filter.mp hc
  unfold rtreeQuery
  exact List.mem_map_of_mem _
    (List.mem_filter.mpr ⟨List.mem_map_of_mem toEntry hmem.1, hmem.2⟩)

theorem nyc_timeseries_two_phase_subset_witness :
    (⟨3, 2, 5, 100, 4, 4⟩ : CrashRec) ∈ window_candidates [⟨3, 2, 5, 100, 4, 4⟩] (Shape.rect 0 10 0 10) ∧
    (3 : ℤ) ∈ rtreeQuery ([⟨3, 2, 5, 100, 4, 4⟩].map toEntry)
      (Shape.rect 0 10 0 10).bbox.1 (Shape.rect 0 10 0 10).bbox.2.1
      (Shape.rect 0 10 0 10).bbox.2.2.1 (Shape.rect 0 10 0 10).bbox.2.2.2 :=
  nyc_timeseries_two_phase_subset [⟨3, 2, 5, 100, 4, 4⟩] (Shape.rect 0 10 0 10)
    ⟨3, 2, 5, 100, 4, 4⟩ (by decide)

/-- C10: two runs of the clusterer on identical inputs give identical
output whatever ambient randomness each run would otherwise draw: the
generator is created with the fixed seed 42 inside `kmeans_hotspots`,
so the caller-visible entropy is never consumed. -/
theorem kmeans_hotspots_deterministic (e1 e2 : ℕ) (recs : List KRecord) (k : ℕ) :
    kmeans_hotspots e1 recs k = kmeans_hotspots e2 recs k := rfl

/-- Evaluation of the squared distance from the crash point to the
vertical segment at x = 3. -/
lemma dist2Road_tie_right :
    dist2Road (2, 0) ⟨10, (3, -5), (3, 5), []⟩ = 1 := by
  norm_num [dist2Road, RoadF.segments, dist2PointSeg, dist2, min_def, max_def]

/-- Evaluation of the squared distance from the crash point to the
vertical segment at x = 1. -/
lemma dist2Road_tie_left :
    dist2Road (2, 0) ⟨20, (1, -5), (1, 5), []⟩ = 1 := by
  norm_num [dist2Road, RoadF.segments, dist2PointSeg, dist2, min_def, max_def]

/-- C1 counterexample: one crash exactly equidistant from two roads
within the radius yields two output rows, so the output length exceeds
the input event count and no single tie-winner is selected. -/
theorem nearest_road_tie_two_rows :
    (nearest_road [⟨1, 3, 0, (2, 0)⟩]
        [⟨10, (3, -5), (3, 5), []⟩, ⟨20, (1, -5), (1, 5), []⟩] 80).length ≠
      ([⟨1, 3, 0, (2, 0)⟩] : List CrashPt).length ∧
    (nearest_road [⟨1, 3, 0, (2, 0)⟩]
        [⟨10, (3, -5), (3, 5), []⟩, ⟨20, (1, -5), (1, 5), []⟩] 80).map
        (fun r => r.road_id) = [some 10, some 20] := by
  norm_num [nearest_road, nearestRowsFor, nearestCands, List.min?,
    dist2Road_tie_right, dist2Road_tie_left]


/-- C5 counterexample: a zero-length road with no matching assignment
gets `0 / 0`, which pandas evaluates to NaN; the replacement step only
rewrites the infinities, so all three derived metrics are NaN rather
than 0. -/
theorem road_summary_zero_length_nan :
    (road_summary [⟨1, 0⟩] []).map
        (fun r => (r.crashes_per_km, r.sev_per_km, r.risk_score)) =
      [(PV.nan, PV.nan, PV.nan)] ∧
    PV.nan ≠ PV.num 0 := by
  refine ⟨?_, by simp⟩
  simp [road_summary, summaryRow, summaryN, summaryS, aggAssign,
    PV.div, PV.smul, PV.add, PV.replaceInf]

/-- Every event contributes at least one output row: the unassigned row
when no candidate exists, else at least the row of a road attaining the
minimum distance. -/
lemma one_le_nearestRowsFor (c : CrashPt) (roads : List RoadF) (R : ℚ) :
    1 ≤ (nearestRowsFor c roads R).length := by
  unfold nearestRowsFor
  cases hm : ((nearestCands c roads R).map (dist2Road c.pt)).min? with
  | none => simp
  | some m =>
    have hmem : m ∈ (nearestCands c roads R).map (dist2Road c.pt) :=
      List.min?_mem (fun a b => min_choice a b) hm
    obtain ⟨r, hr, hd⟩ := List.mem_map.mp hmem
    have hf : r ∈ (nearestCands c roads R).filter (fun r => dist2Road c.pt r = m) :=
      List.mem_filter.mpr ⟨hr, by simp [hd]⟩
    rw [List.length_map]
    exact List.length_pos.mpr (List.ne_nil_of_mem hf)

/-- Auxiliary: a sum of per-element counts that are all at least one
dominates the list length. -/
lemma length_le_sum_map {α : Type} (f : α → ℕ) (l : List α)
    (h : ∀ a ∈ l, 1 ≤ f a) : l.length ≤ (l.map f).sum := by
  induction l with
  | nil => simp
  | cons a tl ih =>
    simp only [List.length_cons, List.map_cons, List.sum_cons]
    have h1 := h a (List.mem_cons_self a tl)
    have h2 := ih (fun b hb => h b (List.mem_cons_of_mem a hb))
    omega

/-- C1 (amended): the output of `nearest_road` has exactly the rows of
`nearestRowsFor` per event — at least one row per event, so the output
length is at least (not exactly) the input event count; ties contribute
one row per co-minimal road instead of a single insertion-order
winner. -/
theorem nearest_road_row_count (crashes : List CrashPt) (roads : List RoadF) (R : ℚ) :
    (nearest_road crashes roads R).length =
      (crashes.map (fun c => (nearestRowsFor c roads R).length)).sum ∧
    (∀ c : CrashPt, 1 ≤ (nearestRowsFor c roads R).length) ∧
    crashes.length ≤ (nearest_road crashes roads R).length := by
  refine ⟨?_, fun c => one_le_nearestRowsFor c roads R, ?_⟩
  · simp [nearest_road, Function.comp_def]
  · have h1 : (nearest_road crashes roads R).length =
        (crashes.map (fun c => (nearestRowsFor c roads R).length)).sum := by
      simp [nearest_road, Function.comp_def]
    rw [h1]
    exact length_le_sum_map _ _ (fun c _ => one_le_nearestRowsFor c roads R)

/-- C6: every assigned row's recorded (squared) distance is at most the
(squared) radius, and an event farther than the radius from every road
gets the single unassigned row — a null assignment, not an error. -/
theorem nearest_road_radius_threshold (crashes : List CrashPt) (roads : List RoadF) (R : ℚ) :
    (∀ row ∈ nearest_road crashes roads R, ∀ d : ℚ, row.dist2_m = some d → d ≤ R ^ 2) ∧
    (∀ c : CrashPt, (∀ r ∈ roads, R ^ 2 < dist2Road c.pt r) →
      nearestRowsFor c roads R = [⟨c.crash_id, c.severity, c.hour, c.pt, none, none⟩]) := by
  constructor
  · intro row hrow d hd
    obtain ⟨c, hc, hr⟩ := List.mem_flatMap.mp hrow
    unfold nearestRowsFor at hr
    cases hm : ((nearestCands c roads R).map (dist2Road c.pt)).min? with
    | none =>
      rw [hm] at hr
      rw [List.mem_singleton] at hr
      subst hr
      simp at hd
    | some m =>
      rw [hm] at hr
      obtain ⟨r, hrf, rfl⟩ := List.mem_map.mp hr
      simp only [Option.some.injEq] at hd
      subst hd
      have hmem : m ∈ (nearestCands c roads R).map (dist2Road c.pt) :=
        List.min?_mem (fun a b => min_choice a b) hm
      obtain ⟨r2, hr2, hdr2⟩ := List.mem_map.mp hmem
      have hle := (List.mem_filter.mp hr2).2
      rw [← hdr2]
      exact of_decide_eq_true hle
  · intro c hfar
    have hnil : nearestCands c roads R = [] := by
      unfold nearestCands
      rw [List.filter_eq_nil_iff]
      intro r hr
      simp only [decide_eq_true_eq, not_le]
      exact hfar r hr
    unfold nearestRowsFor
    rw [hnil]
    rfl

/-- Evaluation of the nearest join at a one-crash, one-road input. -/
lemma nearest_road_single_eval :
    nearest_road [⟨1, 3, 0, (2, 0)⟩] [⟨10, (3, -5), (3, 5), []⟩] 80 =
      [⟨1, 3, 0, (2, 0), some 10, some 1⟩] := by
  norm_num [nearest_road, nearestRowsFor, nearestCands, List.min?, dist2Road_tie_right]

theorem nearest_road_radius_threshold_witness :
    ((1 : ℚ) ≤ 80 ^ 2) ∧
    nearestRowsFor ⟨9, 2, 0, (9999, 9999)⟩ [⟨10, (3, -5), (3, 5), []⟩] 80 =
      [⟨9, 2, 0, (9999, 9999), none, none⟩] := by
  constructor
  · exact (nearest_road_radius_threshold [⟨1, 3, 0, (2, 0)⟩] [⟨10, (3, -5), (3, 5), []⟩] 80).1
      ⟨1, 3, 0, (2, 0), some 10, some 1⟩
      (by rw [nearest_road_single_eval]; exact List.mem_singleton_self _) 1 rfl
  · exact (nearest_road_radius_threshold [] [⟨10, (3, -5), (3, 5), []⟩] 80).2
      ⟨9, 2, 0, (9999, 9999)⟩
      (by
        intro r hr
        rw [List.mem_singleton] at hr
        subst hr
        norm_num [dist2Road, RoadF.segments, dist2PointSeg, dist2, min_def, max_def])

/-- The groupby aggregate never contains a key that no assignment row
references: bumping a different key preserves a failed lookup. -/
lemma aggBump_find?_none (acc : List (ℤ × ℕ × ℤ)) (rid rid2 : ℤ) (sev : ℤ)
    (h : acc.find? (fun e => e.1 = rid) = none) (hne : rid2 ≠ rid) :
    (aggBump acc rid2 sev).find? (fun e => e.1 = rid) = none := by
  rw [List.find?_eq_none] at *
  intro x hx
  unfold aggBump at hx
  split at hx
  · obtain ⟨e, he, rfl⟩ := List.mem_map.mp hx
    have hne2 := h e he
    by_cases hc : e.1 = rid2 <;> simp_all
  · rcases List.mem_append.mp hx with hx | hx
    · exact h x hx
    · rw [List.mem_singleton] at hx
      subst hx
      simpa using hne
/-- A road id referenced by no assignment row has no group in the
aggregate. -/
lemma aggAssign_find?_none (asg : List ARow) (rid : ℤ)
    (h : ∀ a ∈ asg, a.road_id ≠ some rid) :
    (aggAssign asg).find? (fun e => e.1 = rid) = none := by
  suffices haux : ∀ (l : List ARow) (acc : List (ℤ × ℕ × ℤ)),
      (∀ a ∈ l, a.road_id ≠ some rid) →
      acc.find? (fun e => e.1 = rid) = none →
      (l.foldl (fun acc a =>
        match a.road_id with
        | none => acc
        | some r => aggBump acc r a.severity) acc).find? (fun e => e.1 = rid) = none by
    exact haux asg [] h rfl
  intro l
  induction l with
  | nil => intro acc _ hacc; exact hacc
  | cons a tl ih =>
    intro acc hl hacc
    simp only [List.foldl_cons]
    cases hr : a.road_id with
    | none =>
      simp only [hr]
      exact ih acc (fun b hb => hl b (List.mem_cons_of_mem a hb)) hacc
    | some r =>
      simp only [hr]
      have hner : r ≠ rid := by
        have := hl a (List.mem_cons_self a tl)
        rw [hr] at this
        simpa using this
      exact ih _ (fun b hb => hl b (List.mem_cons_of_mem a hb))
        (aggBump_find?_none acc rid r a.severity hacc hner)

/-- C4: `road_summary` emits exactly one summary row per input road
whatever the assignment content (left-join invariant), and a road with
no matching assignment gets crash count 0 and severity sum 0. -/
theorem road_summary_left_join (roads : List RoadS) (asg : List ARow) :
    (road_summary roads asg).length = roads.length ∧
    ∀ road : RoadS, (∀ a ∈ asg, a.road_id ≠ some road.road_id) →
      (summaryRow asg road).n_crashes = 0 ∧ (summaryRow asg road).sev_sum = 0 := by
  refine ⟨by simp [road_summary], ?_⟩
  intro road h
  have hf := aggAssign_find?_none asg road.road_id h
  constructor
  · show summaryN asg road.road_id = 0
    unfold summaryN
    rw [hf]
  · show summaryS asg road.road_id = 0
    unfold summaryS
    rw [hf]

theorem road_summary_left_join_witness :
    (road_summary [⟨1, 100⟩] [⟨5, 2, 0, (2, 0), some 2, some 1⟩]).length = 1 ∧
    (summaryRow [⟨5, 2, 0, (2, 0), some 2, some 1⟩] ⟨1, 100⟩).n_crashes = 0 ∧
    (summaryRow [⟨5, 2, 0, (2, 0), some 2, some 1⟩] ⟨1, 100⟩).sev_sum = 0 := by
  have h := road_summary_left_join [⟨1, 100⟩] [⟨5, 2, 0, (2, 0), some 2, some 1⟩]
  have hside : ∀ a ∈ ([⟨5, 2, 0, (2, 0), some 2, some 1⟩] : List ARow),
      a.road_id ≠ some (1 : ℤ) := by
    intro a ha
    rw [List.mem_singleton] at ha
    subst ha
    simp
  exact ⟨h.1, (h.2 ⟨1, 100⟩ hside).1, (h.2 ⟨1, 100⟩ hside).2⟩

/-- Severity sums in the aggregate are non-negative when every
assignment severity is. -/
lemma aggAssign_sev_nonneg (asg : List ARow) (h : ∀ a ∈ asg, 0 ≤ a.severity) :
    ∀ e ∈ aggAssign asg, 0 ≤ e.2.2 := by
  suffices haux : ∀ (l : List ARow) (acc : List (ℤ × ℕ × ℤ)),
      (∀ a ∈ l, 0 ≤ a.severity) → (∀ e ∈ acc, 0 ≤ e.2.2) →
      ∀ e ∈ (l.foldl (fun acc a =>
        match a.road_id with
        | none => acc
        | some r => aggBump acc r a.severity) acc), 0 ≤ e.2.2 by
    exact haux asg [] h (by simp)
  intro l
  induction l with
  | nil => intro acc _ hacc; exact hacc
  | cons a tl ih =>
    intro acc hl hacc
    simp only [List.foldl_cons]
    have hsev := hl a (List.mem_cons_self a tl)
    have htl := fun b hb => hl b (List.mem_cons_of_mem a hb)
    cases hr : a.road_id with
    | none =>
      simp only [hr]
      exact ih acc htl hacc
    | some r =>
      simp only [hr]
      apply ih _ htl
      intro e he
      unfold aggBump at he
      split at he
      · obtain ⟨e2, he2, rfl⟩ := List.mem_map.mp he
        by_cases hc : e2.1 = r
        · simpa [hc] using add_nonneg (hacc e2 he2) hsev
        · simpa [hc] using hacc e2 he2
      · rcases List.mem_append.mp he with he | he
        · exact hacc e he
        · rw [List.mem_singleton] at he
          subst he
          exact hsev

/-- C5 (amended): a zero-length road whose merged crash count and
severity sum are positive gets 0 (not infinity) for both per-km rates
and for the risk score, because the nonzero/0 infinities are replaced
by 0; and for a positive-length road with non-negative severities the
risk score is a non-negative number.  (When count or sum is 0 with
zero length, 0/0 is NaN and survives the replacement — see the
counterexample.) -/
theorem road_summary_zero_length_amended (asg : List ARow) (road : RoadS) :
    (road.length_m = 0 → 0 < summaryN asg road.road_id → 0 < summaryS asg road.road_id →
      (summaryRow asg road).crashes_per_km = PV.num 0 ∧
      (summaryRow asg road).sev_per_km = PV.num 0 ∧
      (summaryRow asg road).risk_score = PV.num 0) ∧
    (0 < road.length_m → (∀ a ∈ asg, 0 ≤ a.severity) →
      ∃ q : ℚ, 0 ≤ q ∧ (summaryRow asg road).risk_score = PV.num q) := by
  constructor
  · intro hL hn hs
    have hdivN : (PV.div (PV.num (summaryN asg road.road_id))
        (PV.num (road.length_m / 1000))).replaceInf = PV.num 0 := by
      rw [hL]
      simp [PV.div, PV.replaceInf, hn, hn.ne']
    have hdivS : (PV.div (PV.num (summaryS asg road.road_id))
        (PV.num (road.length_m / 1000))).replaceInf = PV.num 0 := by
      rw [hL]
      simp [PV.div, PV.replaceInf, hs, hs.ne']
    refine ⟨hdivN, hdivS, ?_⟩
    show ((PV.smul (6 / 10) ((PV.div (PV.num (summaryS asg road.road_id))
        (PV.num (road.length_m / 1000))).replaceInf)).add
      (PV.smul (4 / 10) ((PV.div (PV.num (summaryN asg road.road_id))
        (PV.num (road.length_m / 1000))).replaceInf))) = PV.num 0
    rw [hdivN, hdivS]
    norm_num [PV.smul, PV.add]
  · intro hL hsev
    have hpos : 0 < road.length_m / 1000 := by positivity
    have hne : road.length_m / 1000 ≠ 0 := ne_of_gt hpos
    have hNnn : 0 ≤ summaryN asg road.road_id := by
      unfold summaryN
      cases hf : (aggAssign asg).find? (fun e => e.1 = road.road_id) with
      | none => exact le_refl 0
      | some e => positivity
    have hSnn : 0 ≤ summaryS asg road.road_id := by
      unfold summaryS
      cases hf : (aggAssign asg).find? (fun e => e.1 = road.road_id) with
      | none => exact le_refl 0
      | some e =>
        have hmem : e ∈ aggAssign asg := List.mem_of_find?_eq_some hf
        have hq : (0 : ℚ) ≤ (e.2.2 : ℚ) := by
          exact_mod_cast aggAssign_sev_nonneg asg hsev e hmem
        exact hq
    refine ⟨6 / 10 * (summaryS asg road.road_id / (road.length_m / 1000)) +
      4 / 10 * (summaryN asg road.road_id / (road.length_m / 1000)), ?_, ?_⟩
    · have h1 : (0 : ℚ) ≤ summaryS asg road.road_id / (road.length_m / 1000) :=
        div_nonneg hSnn hpos.le
      have h2 : (0 : ℚ) ≤ summaryN asg road.road_id / (road.length_m / 1000) :=
        div_nonneg hNnn hpos.le
      have h3 : (0 : ℚ) ≤ 6 / 10 := by norm_num
      have h4 : (0 : ℚ) ≤ 4 / 10 := by norm_num
      exact add_nonneg (mul_nonneg h3 h1) (mul_nonneg h4 h2)
    · show ((PV.smul (6 / 10) ((PV.div (PV.num (summaryS asg road.road_id))
          (PV.num (road.length_m / 1000))).replaceInf)).add
        (PV.smul (4 / 10) ((PV.div (PV.num (summaryN asg road.road_id))
          (PV.num (road.length_m / 1000))).replaceInf))) = PV.num _
      simp [PV.div, hne, PV.replaceInf, PV.smul, PV.add]

theorem road_summary_zero_length_amended_witness :
    (summaryRow [⟨5, 3, 0, (2, 0), some 1, some 1⟩] ⟨1, 0⟩).crashes_per_km = PV.num 0 ∧
    (summaryRow [⟨5, 3, 0, (2, 0), some 1, some 1⟩] ⟨1, 0⟩).sev_per_km = PV.num 0 ∧
    (summaryRow [⟨5, 3, 0, (2, 0), some 1, some 1⟩] ⟨1, 0⟩).risk_score = PV.num 0 :=
  (road_summary_zero_length_amended [⟨5, 3, 0, (2, 0), some 1, some 1⟩] ⟨1, 0⟩).1
    rfl (by norm_num [summaryN, aggAssign, aggBump])
    (by norm_num [summaryS, aggAssign, aggBump])

/-- Upserting the derived rtree row into the mirrored rtree table is
the image of upserting the crash row. -/
lemma upsertEntry_map_toEntry (t : List CrashRec) (r : CrashRec) :
    upsertEntry (t.map toEntry) (toEntry r) = (upsertCrash t r).map toEntry := by
  unfold upsertEntry upsertCrash
  have hany : ((t.map toEntry).any fun x => x.id = (toEntry r).id) =
      (t.any fun c => c.crash_id = r.crash_id) := by
    induction t with
    | nil => rfl
    | cons c tl ih =>
      simp only [List.map_cons, List.any_cons]
      rw [ih]
      rfl
  rw [hany]
  split
  · rw [List.map_map, List.map_map]
    apply List.map_congr_left
    intro c hc
    by_cases h : c.crash_id = r.crash_id <;> simp [Function.comp, toEntry, h]
  · rw [List.map_append]
    rfl

/-- Upserting preserves the id column of the crash table up to
replacement, so a nodup id column stays nodup. -/
lemma upsertCrash_ids_nodup (t : List CrashRec) (r : CrashRec)
    (h : (t.map (fun c => c.crash_id)).Nodup) :
    ((upsertCrash t r).map (fun c => c.crash_id)).Nodup := by
  unfold upsertCrash
  split
  · have hids : ((t.map fun c => if c.crash_id = r.crash_id then r else c).map
        fun c => c.crash_id) = t.map fun c => c.crash_id := by
      rw [List.map_map]
      apply List.map_congr_left
      intro c hc
      by_cases hc2 : c.crash_id = r.crash_id <;> simp [Function.comp, hc2]
    rw [hids]
    exact h
  · rename_i hany
    rw [List.map_append]
    rw [List.nodup_append]
    refine ⟨h, List.nodup_singleton _, ?_⟩
    intro x hx hx2
    rw [List.map_singleton, List.mem_singleton] at hx2
    subst hx2
    obtain ⟨c, hc, hcid⟩ := List.mem_map.mp hx
    exact hany (List.any_eq_true.mpr ⟨c, hc, by simp [hcid]⟩)

/-- The two tables stay mirrored and keyed without duplicates. -/
def DbInv (s : DbState) : Prop :=
  s.rtree_nyc_crashes = s.nyc_crashes.map toEntry ∧
  (s.nyc_crashes.map (fun c => c.crash_id)).Nodup

/-- One store operation preserves the mirror invariant. -/
lemma DbInv_step (s : DbState) (op : DbOp) (h : DbInv s) : DbInv (s.step op) := by
  cases op with
  | clear => exact ⟨rfl, List.nodup_nil⟩
  | ingest recs =>
    obtain ⟨hmir, hnd⟩ := h
    unfold DbState.step ingest_nyc_crashes
    constructor
    · show (recs.foldl (fun t r => upsertEntry t (toEntry r)) s.rtree_nyc_crashes) =
        (recs.foldl upsertCrash s.nyc_crashes).map toEntry
      rw [hmir]
      clear hmir hnd
      induction recs generalizing s with
      | nil => rfl
      | cons r tl ih =>
        simp only [List.foldl_cons]
        rw [upsertEntry_map_toEntry]
        exact ih ⟨upsertCrash s.nyc_crashes r, []⟩
    · show ((recs.foldl upsertCrash s.nyc_crashes).map fun c => c.crash_id).Nodup
      clear hmir
      induction recs generalizing s with
      | nil => exact hnd
      | cons r tl ih =>
        simp only [List.foldl_cons]
        exact ih ⟨upsertCrash s.nyc_crashes r, []⟩ (upsertCrash_ids_nodup _ r hnd)

/-- The mirror invariant holds in every reachable store state. -/
lemma runOps_inv (ops : List DbOp) : DbInv (runOps ops) := by
  suffices haux : ∀ (l : List DbOp) (s : DbState), DbInv s → DbInv (l.foldl DbState.step s) by
    exact haux ops ⟨[], []⟩ ⟨rfl, List.nodup_nil⟩
  intro l
  induction l with
  | nil => intro s h; exact h
  | cons op tl ih =>
    intro s h
    simp only [List.foldl_cons]
    exact ih _ (DbInv_step s op h)

/-- In a table whose id column has no duplicates, filtering on the id
of a member yields exactly that member. -/
lemma filter_key_singleton (t : List CrashRec) (c : CrashRec)
    (hnd : (t.map (fun c => c.crash_id)).Nodup) (hc : c ∈ t) :
    t.filter (fun b => b.crash_id = c.crash_id) = [c] := by
  induction t with
  | nil => cases hc
  | cons a tl ih =>
    rw [List.map_cons, List.nodup_cons] at hnd
    rcases List.mem_cons.mp hc with rfl | hmem
    · rw [List.filter_cons_of_pos (by simp)]
      have hnil : tl.filter (fun b => b.crash_id = c.crash_id) = [] := by
        rw [List.filter_eq_nil_iff]
        intro b hb
        simp only [decide_eq_true_eq]
        intro heq
        exact hnd.1 (heq ▸ List.mem_map_of_mem (fun c => c.crash_id) hb)
      rw [hnil]
    · have hne : a.crash_id ≠ c.crash_id := by
        intro he
        exact hnd.1 (he ▸ List.mem_map_of_mem (fun c => c.crash_id) hmem)
      rw [List.filter_cons_of_neg (by simp [hne])]
      exact ih hnd.2 hmem

/-- C7: after any sequence of bulk ingests and cache clears starting
from the empty store, the rtree table is exactly the image of the crash
table (so the two are never independently stale), crash ids are unique,
and every stored crash has exactly one rtree entry — the one whose box
is the crash point's degenerate bounding box, which contains the
geometry. -/
theorem db_index_consistency (ops : List DbOp) :
    (runOps ops).rtree_nyc_crashes = (runOps ops).nyc_crashes.map toEntry ∧
    ((runOps ops).nyc_crashes.map (fun c => c.crash_id)).Nodup ∧
    ∀ c ∈ (runOps ops).nyc_crashes,
      (runOps ops).rtree_nyc_crashes.filter (fun e => e.id = c.crash_id) = [toEntry c] ∧
      (toEntry c).minx ≤ c.x ∧ c.x ≤ (toEntry c).maxx ∧
      (toEntry c).miny ≤ c.y ∧ c.y ≤ (toEntry c).maxy := by
  obtain ⟨hmir, hnd⟩ := runOps_inv ops
  refine ⟨hmir, hnd, ?_⟩
  intro c hc
  refine ⟨?_, le_refl _, le_refl _, le_refl _, le_refl _⟩
  rw [hmir, List.filter_map]
  have hpf : ((fun e : RtEntry => decide (e.id = c.crash_id)) ∘ toEntry) =
      fun b : CrashRec => decide (b.crash_id = c.crash_id) := rfl
  rw [hpf, filter_key_singleton _ c hnd hc]
  rfl

theorem db_index_consistency_witness :
    (runOps [DbOp.ingest [⟨1, 2, 3, 40, 5, 6⟩, ⟨2, 1, 0, 41, 7, 8⟩], DbOp.clear,
        DbOp.ingest [⟨1, 2, 3, 40, 5, 6⟩, ⟨1, 4, 4, 44, 9, 10⟩]]).rtree_nyc_crashes.filter
      (fun e => e.id = (1 : ℤ)) = [toEntry ⟨1, 4, 4, 44, 9, 10⟩] := by
  have h := (db_index_consistency [DbOp.ingest [⟨1, 2, 3, 40, 5, 6⟩, ⟨2, 1, 0, 41, 7, 8⟩],
    DbOp.clear, DbOp.ingest [⟨1, 2, 3, 40, 5, 6⟩, ⟨1, 4, 4, 44, 9, 10⟩]]).2.2
      ⟨1, 4, 4, 44, 9, 10⟩ (by
        show _ ∈ (runOps _).nyc_crashes
        simp [runOps, DbState.step, ingest_nyc_crashes, clear_nyc_cache,
          upsertCrash, upsertEntry, toEntry])
  exact h.1

/-- The seed-determined index draw is a permutation of `0..n-1`. -/
lemma permOfSeed_perm (seed n : ℕ) : (permOfSeed seed n).Perm (List.range n) := by
  unfold permOfSeed
  have h1 : ((List.range n).drop (seed % (n + 1)) ++ (List.range n).take (seed % (n + 1))).Perm
      ((List.range n).take (seed % (n + 1)) ++ (List.range n).drop (seed % (n + 1))) :=
    List.perm_append_comm
  rw [List.take_append_drop] at h1
  exact h1

lemma permOfSeed_length (seed n : ℕ) : (permOfSeed seed n).length = n := by
  rw [(permOfSeed_perm seed n).length_eq, List.length_range]

/-- The clusterer draws `min k n` initial centroids. -/
lemma initCentroids_length (seed k : ℕ) (X : List Q2) :
    (initCentroids seed k X).length = min k X.length := by
  unfold initCentroids
  rw [List.length_map, List.length_take, permOfSeed_length]
  have h : min k X.length ≤ X.length := Nat.min_le_right k X.length
  omega

/-- Reading a list back at the indices `0..n-1` reproduces the list. -/
lemma map_getD_range (X : List Q2) :
    (List.range X.length).map (fun i => X.getD i (0, 0)) = X := by
  apply List.ext_getElem
  · simp
  · intro i h1 h2
    simp [List.getD_eq_getElem?_getD, List.getElem?_eq_getElem h2]

/-- When the cloud is no larger than `k`, the initial centroids are a
permutation of the whole cloud: every point becomes a centroid. -/
lemma initCentroids_perm_of_le (seed k : ℕ) (X : List Q2) (h : X.length ≤ k) :
    (initCentroids seed k X).Perm X := by
  unfold initCentroids
  rw [Nat.min_eq_right h]
  have hlen : (permOfSeed seed X.length).length ≤ X.length :=
    le_of_eq (permOfSeed_length seed X.length)
  rw [List.take_of_length_le hlen]
  have hp := (permOfSeed_perm seed X.length).map (fun i => X.getD i (0, 0))
  rwa [map_getD_range] at hp

/-- Rounds preserve the number of centroids. -/
lemma kmeansFinal_fst_length (recs : List KRecord) (k : ℕ) :
    ((kmeansFinal recs k).1).length = min k recs.length := by
  unfold kmeansFinal
  have haux : ∀ (m : ℕ) (X : List Q2) (s : List Q2 × List ℕ),
      (((kstep X)^[m]) s).1.length = s.1.length := by
    intro m X
    induction m with
    | zero => intro s; rfl
    | succ m ih =>
      intro s
      rw [Function.iterate_succ_apply, ih (kstep X s)]
      simp [kstep, updateCentroids]
  rw [haux, initCentroids_length, List.length_map]

/-- At most one cluster is emitted per centroid. -/
lemma buildStats_length_le (recs : List KRecord) (cents : List Q2) (labels : List ℕ) :
    (buildStats recs cents labels).length ≤ cents.length := by
  unfold buildStats
  exact le_trans (List.length_filterMap_le _ _) (le_of_eq (List.length_range _))

/-- The descending sort is a permutation of its input. -/
lemma sortDesc_perm (l : List Cluster) : (sortDesc l).Perm l :=
  List.perm_insertionSort _ _

/-- The run on the empty cloud produces no clusters. -/
lemma kmeansStats_nil (k : ℕ) : kmeansStats [] k = [] := by
  have hc : initCentroids 42 k ([] : List Q2) = [] := by
    unfold initCentroids permOfSeed
    simp
  unfold kmeansStats kmeansFinal
  simp only [List.map_nil]
  rw [hc]
  have hfix : kstep [] (([], []) : List Q2 × List ℕ) = ([], []) := by
    simp [kstep, assignLabels, updateCentroids]
  rw [Function.iterate_fixed hfix]
  simp [buildStats]

/-- C8: the clusterer returns the empty cluster list on the empty cloud
without error, and on a cloud smaller than `k` it uses every point as
an initial centroid and emits at most one cluster per point. -/
theorem kmeans_empty_and_small (entropy k : ℕ) (recs : List KRecord) :
    kmeans_hotspots entropy [] k = some [] ∧
    (recs.length < k →
      kmeans_hotspots entropy recs k = some (sortDesc (kmeansStats recs k)) ∧
      (sortDesc (kmeansStats recs k)).length ≤ recs.length ∧
      (initCentroids 42 k (recs.map (fun r => (r.x, r.y)))).Perm
        (recs.map (fun r => (r.x, r.y)))) := by
  constructor
  · rfl
  · intro hk
    have hperm : (initCentroids 42 k (recs.map (fun r => (r.x, r.y)))).Perm
        (recs.map (fun r => (r.x, r.y))) :=
      initCentroids_perm_of_le 42 k _ (by rw [List.length_map]; exact le_of_lt hk)
    refine ⟨?_, ?_, hperm⟩
    · by_cases hre : recs = []
      · subst hre
        rw [kmeansStats_nil]
        rfl
      · unfold kmeans_hotspots
        rw [if_neg (by simpa [List.isEmpty_iff] using hre), if_neg ?_]
        have hlen : (initCentroids 42 k (recs.map (fun r => (r.x, r.y)))).length =
            min k recs.length := by
          rw [initCentroids_length, List.length_map]
        have hpos : 0 < recs.length := List.length_pos.mpr hre
        rw [List.isEmpty_iff]
        intro hnil
        rw [hnil] at hlen
        simp only [List.length_nil] at hlen
        omega
    · rw [(sortDesc_perm _).length_eq]
      unfold kmeansStats
      refine le_trans (buildStats_length_le _ _ _) ?_
      rw [kmeansFinal_fst_length]
      exact Nat.min_le_right k recs.length

theorem kmeans_empty_and_small_witness :
    kmeans_hotspots 0 [] 5 = some [] ∧
    kmeans_hotspots 0 [⟨2, 3, 1⟩] 3 = some (sortDesc (kmeansStats [⟨2, 3, 1⟩] 3)) ∧
    (sortDesc (kmeansStats [⟨2, 3, 1⟩] 3)).length ≤ 1 ∧
    (initCentroids 42 3 ([(⟨2, 3, 1⟩ : KRecord)].map (fun r => (r.x, r.y)))).Perm
      ([(⟨2, 3, 1⟩ : KRecord)].map (fun r => (r.x, r.y))) := by
  have h := (kmeans_empty_and_small 0 3 [⟨2, 3, 1⟩]).2 (by norm_num)
  exact ⟨(kmeans_empty_and_small 0 5 []).1, h.1, h.2.1, h.2.2⟩

end PocketGis
